import Mathlib

/-!
Shallow embedding of the RAG pipeline (app/services/pdf_processor.py,
app/utils/security.py, app/services/vector_store.py,
app/services/embedding_service.py, app/main.py) and proofs about it.
Text is modelled as `List Char`; Python's bounded `while` loop in the
chunker is modelled with explicit fuel, with non-termination visible as
the fuel never sufficing.
-/

set_option maxRecDepth 100000

namespace RagPipeline

/-- Python `str.strip()` whitespace test for the ASCII fragment:
a chunk is kept iff `chunk.strip()` is truthy, i.e. some char is
not whitespace. -/
def isSpaceChar (c : Char) : Bool :=
  c = ' ' || c = '\t' || c = '\n' || c = '\r' || c = '\x0b' || c = '\x0c'

/-- `chunk.strip()` is falsy iff every character is whitespace. -/
def isBlank (s : List Char) : Bool := s.all isSpaceChar

/-- Python slice `text[start:start+len]` for nonnegative indices. -/
def sliceFrom (s : List Char) (start len : Nat) : List Char :=
  (s.drop start).take len

/-- `PDFProcessor._create_chunks` loop body, fuel-indexed.
Python:
    while start < len(text):
        end = start + self.chunk_size
        chunk = text[start:end]
        if chunk.strip():
            chunks.append(chunk)
        start += self.chunk_size - self.chunk_overlap
`none` means the fuel ran out before the loop exited (the Python loop
is still running); the advance `chunk_size - chunk_overlap` is Nat
subtraction, which is 0 whenever overlap >= size — in Python the
advance would be <= 0 there and the loop likewise never terminates. -/
def chunksAux (C O : Nat) (text : List Char) : Nat → Nat → Option (List (List Char))
  | start, 0 => if start < text.length then none else some []
  | start, fuel + 1 =>
    if start < text.length then
      let chunk := sliceFrom text start C
      match chunksAux C O text (start + (C - O)) fuel with
      | none => none
      | some rest => some (if isBlank chunk then rest else chunk :: rest)
    else some []

/-- `PDFProcessor._create_chunks(text)` with `chunk_size = C`,
`chunk_overlap = O`.  Fuel `text.length + C` always suffices when
`O < C` (proved below). -/
def createChunks (C O : Nat) (text : List Char) : List (List Char) :=
  (chunksAux C O text 0 (text.length + C)).getD []

/-- The window the loop reads at offset `s`: `text[s : s + C]`. -/
def windowAt (text : List Char) (C s : Nat) : List Char := sliceFrom text s C

/-- Number of loop iterations: starts `0, step, 2*step, ...` strictly
below `L`, i.e. `ceil (L / step)`. -/
def numStarts (L step : Nat) : Nat := (L + step - 1) / step

/-- The full sequence of windows the loop visits. -/
def chunkWindows (C O : Nat) (text : List Char) : List (List Char) :=
  (List.range' 0 (numStarts text.length (C - O)) (C - O)).map (windowAt text C)

/-- Declarative description of the chunker: visit each window, keep the
non-blank ones in order. -/
def chunksSpec (C O : Nat) (text : List Char) : List (List Char) :=
  (chunkWindows C O text).filter (fun c => !isBlank c)

/-- The largest `n` such that the last `n` characters of `a` coincide
with the first `n` characters of `b` — the number of characters two
adjacent chunks share. -/
def overlapCount (a b : List Char) : Nat :=
  (List.range (min a.length b.length + 1)).foldl
    (fun acc n => if a.drop (a.length - n) = b.take n then n else acc) 0

theorem chunksAux_of_le (C O : Nat) (text : List Char) (start : Nat)
    (h : text.length ≤ start) : ∀ fuel, chunksAux C O text start fuel = some [] := by
  intro fuel
  cases fuel with
  | zero => simp [chunksAux, Nat.not_lt_of_le h]
  | succ n => simp [chunksAux, Nat.not_lt_of_le h]

theorem windowAt_blank_of_le (text : List Char) (C s : Nat)
    (h : text.length ≤ s) : isBlank (windowAt text C s) = true := by
  have hd : text.drop s = [] := List.drop_eq_nil_of_le h
  simp [windowAt, sliceFrom, hd, isBlank]

/-- Main characterization: with enough fuel and a positive step, the
loop computes exactly the non-blank windows at starts
`start, start + step, ...` (`k` starts, where `k` may overshoot: windows
past the end are empty, hence blank, hence filtered out). -/
theorem chunksAux_eq_filter (C O : Nat) (text : List Char) :
    ∀ k start fuel, text.length ≤ start + k * (C - O) → k ≤ fuel →
      chunksAux C O text start fuel =
        some (((List.range' start k (C - O)).map (windowAt text C)).filter
          (fun c => !isBlank c)) := by
  intro k
  induction k with
  | zero =>
    intro start fuel hL _
    simp only [Nat.zero_mul, Nat.add_zero] at hL
    simp [chunksAux_of_le C O text start hL, List.range']
  | succ n ih =>
    intro start fuel hL hfuel
    cases fuel with
    | zero => omega
    | succ f =>
      by_cases hs : start < text.length
      · have hrec := ih (start + (C - O)) f
          (by rw [Nat.succ_mul] at hL; omega) (by omega)
        simp only [chunksAux, if_pos hs, hrec]
        have hr : List.range' start (n + 1) (C - O) =
            start :: List.range' (start + (C - O)) n (C - O) := by
          simp [List.range'_succ]
        rw [hr]
        simp only [List.map_cons, List.filter_cons]
        by_cases hb : isBlank (sliceFrom text start C) = true
        · simp [windowAt, hb]
        · simp [windowAt, hb]
      · push_neg at hs
        rw [chunksAux_of_le C O text start hs]
        have hall : ∀ c ∈ (List.range' start (n + 1) (C - O)).map (windowAt text C),
            ¬ (!isBlank c) = true := by
          intro c hc
          rcases List.mem_map.mp hc with ⟨x, hx, rfl⟩
          rcases List.mem_range'.mp hx with ⟨i, _, rfl⟩
          have : text.length ≤ start + (C - O) * i := by omega
          simp [windowAt_blank_of_le text C _ this]
        rw [List.filter_eq_nil_iff.mpr hall]

/-- Ceiling property: `numStarts L step * step ≥ L` for positive step. -/
theorem numStarts_mul_ge (L step : Nat) (h : 0 < step) : L ≤ numStarts L step * step := by
  unfold numStarts
  have h1 := Nat.div_add_mod (L + step - 1) step
  rw [Nat.mul_comm] at h1
  have h2 : (L + step - 1) % step < step := Nat.mod_lt _ h
  omega

/-- And `numStarts L step ≤ L + step - 1`, so fuel `L + C` suffices. -/
theorem numStarts_le (L step : Nat) : numStarts L step ≤ L + step - 1 := by
  unfold numStarts
  exact Nat.div_le_self _ _

/-- `createChunks` equals its declarative description when `O < C`. -/
theorem createChunks_eq_spec (C O : Nat) (text : List Char) (h : O < C) :
    createChunks C O text = chunksSpec C O text := by
  have hstep : 0 < C - O := by omega
  have hmul := numStarts_mul_ge text.length (C - O) hstep
  have hle : numStarts text.length (C - O) ≤ text.length + C := by
    have := numStarts_le text.length (C - O)
    omega
  have := chunksAux_eq_filter C O text (numStarts text.length (C - O)) 0
    (text.length + C) (by omega) hle
  unfold createChunks chunksSpec chunkWindows
  rw [this]
  rfl

/-- Extracted text for end-to-end scenario A: exactly 2500 characters,
no blank window (every character is a letter). -/
def exText2500 : List Char := List.replicate 2500 'a'

theorem isBlank_replicate_a (n : Nat) (h : 0 < n) :
    isBlank (List.replicate n 'a') = false := by
  cases n with
  | zero => omega
  | succ m => simp [isBlank, List.all_replicate, isSpaceChar]

theorem window2500 (s k : Nat) (h : 1000 ⊓ (2500 - s) = k) :
    windowAt exText2500 1000 s = List.replicate k 'a' := by
  unfold windowAt sliceFrom exText2500
  rw [List.drop_replicate, List.take_replicate, h]

theorem exText2500_chunks :
    createChunks 1000 200 exText2500 =
      [windowAt exText2500 1000 0, windowAt exText2500 1000 800,
       windowAt exText2500 1000 1600, windowAt exText2500 1000 2400] := by
  rw [createChunks_eq_spec 1000 200 exText2500 (by norm_num)]
  unfold chunksSpec chunkWindows
  have hlen : exText2500.length = 2500 := by
    unfold exText2500
    rw [List.length_replicate]
  rw [hlen]
  have h4 : numStarts 2500 (1000 - 200) = 4 := by norm_num [numStarts]
  rw [h4]
  have hr : List.range' 0 4 (1000 - 200) = [0, 800, 1600, 2400] := by
    norm_num [List.range']
  rw [hr]
  simp only [List.map_cons, List.map_nil]
  rw [window2500 0 1000 (by omega), window2500 800 1000 (by omega),
    window2500 1600 900 (by omega), window2500 2400 100 (by omega)]
  rw [List.filter_cons_of_pos (by rw [isBlank_replicate_a 1000 (by omega)]; rfl),
    List.filter_cons_of_pos (by rw [isBlank_replicate_a 1000 (by omega)]; rfl),
    List.filter_cons_of_pos (by rw [isBlank_replicate_a 900 (by omega)]; rfl),
    List.filter_cons_of_pos (by rw [isBlank_replicate_a 100 (by omega)]; rfl),
    List.filter_nil]

/-- C1: the claim expects chunk lengths [1000, 1000, 1000, 300] on a
2500-character text with chunk_size 1000, overlap 200; the code
produces lengths [1000, 1000, 900, 100] (the third window is truncated
by the end of the text), so the claim is false at this input. -/
theorem c1_counterexample :
    (createChunks 1000 200 exText2500).map List.length ≠ [1000, 1000, 1000, 300] := by
  rw [exText2500_chunks, window2500 0 1000 (by omega), window2500 800 1000 (by omega),
    window2500 1600 900 (by omega), window2500 2400 100 (by omega)]
  simp only [List.map_cons, List.map_nil, List.length_replicate]
  norm_num

/-- C1 (amended): for a 2500-character all-non-blank text with
chunk_size = 1000 and chunk_overlap = 200 the chunker produces exactly
4 chunks, the windows at start offsets [0, 800, 1600, 2400], with
lengths [1000, 1000, 900, 100]. -/
theorem c1_amended :
    createChunks 1000 200 exText2500 =
      [windowAt exText2500 1000 0, windowAt exText2500 1000 800,
       windowAt exText2500 1000 1600, windowAt exText2500 1000 2400] ∧
    (createChunks 1000 200 exText2500).map List.length = [1000, 1000, 900, 100] ∧
    (createChunks 1000 200 exText2500).length = 4 := by
  refine ⟨exText2500_chunks, ?_, ?_⟩
  · rw [exText2500_chunks, window2500 0 1000 (by omega), window2500 800 1000 (by omega),
      window2500 1600 900 (by omega), window2500 2400 100 (by omega)]
    simp only [List.map_cons, List.map_nil, List.length_replicate]
  · rw [exText2500_chunks]
    rfl

/-- Text for the C2 counterexample: 9 letters, chunk_size 10, overlap 8. -/
def exText9 : List Char := ['a', 'b', 'c', 'd', 'e', 'f', 'g', 'h', 'i']

/-- C2 (counterexample): with chunk_size 10, chunk_overlap 8 on a
9-character text the produced sequence has 5 chunks; chunks 0 and 1
(adjacent, and chunk 1 is not the final chunk) share 7 characters
of overlap, not chunk_overlap = 8: the first window is already
truncated by the end of the text, so "adjacent chunks share exactly O
characters, except possibly the final chunk" fails. -/
theorem c2_counterexample :
    (createChunks 10 8 exText9).length = 5 ∧
    (createChunks 10 8 exText9).get? 0 = some (windowAt exText9 10 0) ∧
    (createChunks 10 8 exText9).get? 1 = some (windowAt exText9 10 2) ∧
    overlapCount (windowAt exText9 10 0) (windowAt exText9 10 2) = 7 ∧
    ¬ overlapCount (windowAt exText9 10 0) (windowAt exText9 10 2) = 8 := by
  decide

/-- C2 (amended): for chunk_overlap O < chunk_size C the chunker
takes windows [start, start + C) at starts advancing by C - O from 0
until start ≥ length, keeping a window iff it is non-blank; every
produced chunk has length ≤ C; and a window's last C - O characters
onward agree with the next window's first O characters, the shared
part having length exactly O whenever the earlier window is untruncated
(length exactly C) — truncated windows, which need not be the final
chunk, may share fewer than O characters. -/
theorem c2_amended (C O : Nat) (text : List Char) (h : O < C) :
    createChunks C O text = chunksSpec C O text ∧
    (∀ c ∈ createChunks C O text, c.length ≤ C) ∧
    (∀ s, (windowAt text C s).drop (C - O) =
        (windowAt text C (s + (C - O))).take O ∧
      ((windowAt text C s).length = C →
        ((windowAt text C s).drop (C - O)).length = O)) := by
  refine ⟨createChunks_eq_spec C O text h, ?_, ?_⟩
  · intro c hc
    rw [createChunks_eq_spec C O text h] at hc
    unfold chunksSpec chunkWindows at hc
    rcases List.mem_map.mp (List.mem_of_mem_filter hc) with ⟨s, _, rfl⟩
    exact List.length_take_le _ _
  · intro s
    constructor
    · unfold windowAt sliceFrom
      rw [List.drop_take, List.take_take, List.drop_drop]
      congr 1
      omega
    · intro hlen
      rw [List.length_drop, hlen]
      omega

/-- Tiny text used only to witness the general chunking theorems. -/
def exTextW : List Char := ['a', 'b', 'c', 'd']

theorem c2_amended_witness :
    (1 < 3) ∧ createChunks 3 1 exTextW = chunksSpec 3 1 exTextW :=
  ⟨by norm_num, (c2_amended 3 1 exTextW (by norm_num)).1⟩

theorem chunksAux_none_of_step_zero (C O : Nat) (text : List Char)
    (h : C ≤ O) (hlen : 0 < text.length) :
    ∀ fuel, chunksAux C O text 0 fuel = none := by
  have h0 : C - O = 0 := by omega
  intro fuel
  induction fuel with
  | zero => simp [chunksAux, hlen]
  | succ n ih => simp [chunksAux, hlen, h0, ih]

/-- C3: when chunk_overlap < chunk_size the chunking loop terminates on
every input (fuel text.length + chunk_size always suffices), and when
chunk_overlap ≥ chunk_size the advance is zero (negative in Python,
truncated to 0 in this Nat model) and on any non-empty text no amount
of fuel makes the loop exit — it runs forever, so the precondition is
necessary. -/
theorem c3_termination :
    (∀ (C O : Nat) (text : List Char), O < C →
      (chunksAux C O text 0 (text.length + C)).isSome = true) ∧
    (∀ (C O : Nat) (text : List Char), C ≤ O → 0 < text.length →
      ∀ fuel, chunksAux C O text 0 fuel = none) := by
  constructor
  · intro C O text h
    have hstep : 0 < C - O := by omega
    have hmul := numStarts_mul_ge text.length (C - O) hstep
    have hle : numStarts text.length (C - O) ≤ text.length + C := by
      have := numStarts_le text.length (C - O)
      omega
    rw [chunksAux_eq_filter C O text (numStarts text.length (C - O)) 0
      (text.length + C) (by omega) hle]
    rfl
  · exact chunksAux_none_of_step_zero

theorem c3_termination_witness :
    ((chunksAux 3 1 exTextW 0 (exTextW.length + 3)).isSome = true) ∧
    chunksAux 1 2 exTextW 0 5 = none :=
  ⟨c3_termination.1 3 1 exTextW (by norm_num),
   c3_termination.2 1 2 exTextW (by norm_num) (by norm_num [exTextW]) 5⟩

/-! ### Sensitive-data masker (app/utils/security.py)

`mask_sensitive_data` first rewrites every occurrence of the regex
`\b[A-Za-z0-9._%+-]+@[A-Za-z0-9.-]+\.[A-Z|a-z]{2,}\b` (note: the last
class really contains `|`) to `match[:3] + mask_char*5 + match[-4:]`,
then, if the result is longer than 30 characters and contains a slash
or backslash, replaces it by `text[:10] + mask_char*10 + text[-10:]`.
The matcher below implements the Python `re` semantics of this one
concrete pattern on the ASCII fragment: leftmost match, greedy
quantifiers with backtracking, `\b` = word/non-word transition with
word chars `[A-Za-z0-9_]`. -/

def isWordChar (c : Char) : Bool := c.isAlpha || c.isDigit || c = '_'

/-- Character class `[A-Za-z0-9._%+-]` (the local part). -/
def localClass (c : Char) : Bool :=
  c.isAlpha || c.isDigit || c = '.' || c = '_' || c = '%' || c = '+' || c = '-'

/-- Character class `[A-Za-z0-9.-]` (the domain). -/
def domainClass (c : Char) : Bool := c.isAlpha || c.isDigit || c = '.' || c = '-'

/-- Character class `[A-Z|a-z]` (the TLD; `|` is inside the class). -/
def tldClass (c : Char) : Bool := c.isAlpha || c = '|'

/-- Length of the maximal run of `p`-characters at the head. -/
def takeRun (p : Char → Bool) : List Char → Nat
  | [] => 0
  | c :: cs => if p c then takeRun p cs + 1 else 0

/-- Is the character at index `i` a word character (out of range: no)? -/
def wordAt (s : List Char) (i : Nat) : Bool :=
  match s[i]? with
  | some c => isWordChar c
  | none => false

/-- `\b` at position `i`: word-ness changes between `i - 1` and `i`
(positions outside the string count as non-word). -/
def boundaryAt (s : List Char) : Nat → Bool
  | 0 => wordAt s 0
  | i + 1 => wordAt s i != wordAt s (i + 1)

/-- Greedy `[A-Z|a-z]{2,}\b` at `pos`: try TLD length `n`, then
`n - 1`, ... down to 2, accepting the first length whose end position
is a word boundary; returns the end position of the whole match. -/
def tryTldFrom (s : List Char) (pos : Nat) : Nat → Option Nat
  | 0 => none
  | 1 => none
  | t + 2 =>
    if boundaryAt s (pos + t + 2) then some (pos + t + 2)
    else tryTldFrom s pos (t + 1)

/-- Greedy `[A-Za-z0-9.-]+\.` followed by the TLD, starting at `k`:
try domain length `n`, `n - 1`, ... down to 1; each length must be
followed by a literal '.', then the TLD part. -/
def tryDomain (s : List Char) (k : Nat) : Nat → Option Nat
  | 0 => none
  | d + 1 =>
    if s[k + d + 1]? = some '.' then
      match tryTldFrom s (k + d + 2) (takeRun tldClass (s.drop (k + d + 2))) with
      | some e => some e
      | none => tryDomain s k d
    else tryDomain s k d

/-- Try to match the whole email pattern at position `i`; `some e`
means the match is `s[i:e]`.  The local part is deterministic: '@' is
not in the local class, so only the maximal run can be followed
by '@'. -/
def matchAt (s : List Char) (i : Nat) : Option Nat :=
  if boundaryAt s i then
    let l := takeRun localClass (s.drop i)
    if l = 0 then none
    else if s[i + l]? = some '@' then
      tryDomain s (i + l + 1) (takeRun domainClass (s.drop (i + l + 1)))
    else none
  else none

/-- The replacement `m.group(0)[:3] + mask_char * 5 + m.group(0)[-4:]`. -/
def maskRepl (mc : Char) (m : List Char) : List Char :=
  m.take 3 ++ List.replicate 5 mc ++ m.drop (m.length - 4)

/-- `re.sub` scan: walk left to right, replacing each leftmost match
and continuing after its end; every step advances the position, so
fuel `s.length` always suffices (running out exactly at the end). -/
def subAux (s : List Char) (mc : Char) : Nat → Nat → List Char
  | _, 0 => []
  | p, fuel + 1 =>
    if p < s.length then
      match matchAt s p with
      | some e => maskRepl mc (sliceFrom s p (e - p)) ++ subAux s mc e fuel
      | none => (s.drop p).take 1 ++ subAux s mc (p + 1) fuel
    else []

/-- The email-masking pass of `mask_sensitive_data`. -/
def emailSub (s : List Char) (mc : Char) : List Char := subAux s mc 0 s.length

/-- The path-masking trigger: `len(text) > 30 and ('/' in text or '\\' in text)`. -/
def pathTrigger (u : List Char) : Bool :=
  decide (30 < u.length) && u.any (fun c => c = '/' || c = '\\')

/-- The path-masking replacement `text[:10] + mask_char*10 + text[-10:]`. -/
def pathMask (mc : Char) (u : List Char) : List Char :=
  u.take 10 ++ List.replicate 10 mc ++ u.drop (u.length - 10)

/-- `mask_sensitive_data(text, mask_char)`: falsy (empty) input is
returned unchanged; otherwise email masking, then conditional path
masking. -/
def maskSensitiveData (text : List Char) (mc : Char) : List Char :=
  if text.isEmpty then text
  else
    let t1 := emailSub text mc
    if pathTrigger t1 then pathMask mc t1 else t1

theorem takeRun_le (p : Char → Bool) : ∀ l : List Char, takeRun p l ≤ l.length := by
  intro l
  induction l with
  | nil => simp [takeRun]
  | cons c cs ih =>
    by_cases h : p c = true
    · simp [takeRun, h]
      omega
    · simp [takeRun, h]

theorem tryTldFrom_bounds (s : List Char) (pos : Nat) :
    ∀ n e, tryTldFrom s pos n = some e → ∃ t, 2 ≤ t ∧ t ≤ n ∧ e = pos + t := by
  intro n
  induction n with
  | zero => intro e h; simp [tryTldFrom] at h
  | succ m ih =>
    intro e h
    match m, h with
    | 0, h => simp [tryTldFrom] at h
    | t + 1, h =>
      rw [tryTldFrom] at h
      by_cases hb : boundaryAt s (pos + t + 2) = true
      · rw [if_pos hb] at h
        injection h with h
        exact ⟨t + 2, by omega, by omega, by omega⟩
      · rw [if_neg hb] at h
        rcases ih e h with ⟨t', h1, h2, h3⟩
        exact ⟨t', h1, by omega, h3⟩

theorem tryDomain_bounds (s : List Char) (k : Nat) :
    ∀ n e, tryDomain s k n = some e → k + 4 ≤ e ∧ e ≤ s.length := by
  intro n
  induction n with
  | zero => intro e h; simp [tryDomain] at h
  | succ d ih =>
    intro e h
    rw [tryDomain] at h
    by_cases hdot : s[k + d + 1]? = some '.'
    · rw [if_pos hdot] at h
      cases htld : tryTldFrom s (k + d + 2) (takeRun tldClass (s.drop (k + d + 2))) with
      | none =>
        rw [htld] at h
        exact ih e h
      | some e' =>
        rw [htld] at h
        injection h with h
        subst h
        rcases tryTldFrom_bounds s (k + d + 2) _ e' htld with ⟨t, h2, hle, rfl⟩
        have hrun : takeRun tldClass (s.drop (k + d + 2)) ≤ s.length - (k + d + 2) := by
          have := takeRun_le tldClass (s.drop (k + d + 2))
          simpa using this
        constructor
        · omega
        · omega
    · rw [if_neg hdot] at h
      exact ih e h

theorem matchAt_bounds (s : List Char) (i e : Nat) (h : matchAt s i = some e) :
    i + 6 ≤ e ∧ e ≤ s.length := by
  rw [matchAt] at h
  by_cases hb : boundaryAt s i = true
  · rw [if_pos hb] at h
    simp only at h
    by_cases hl : takeRun localClass (s.drop i) = 0
    · rw [if_pos hl] at h
      simp at h
    · rw [if_neg hl] at h
      by_cases hat : s[i + takeRun localClass (s.drop i)]? = some '@'
      · rw [if_pos hat] at h
        have := tryDomain_bounds s (i + takeRun localClass (s.drop i) + 1) _ e h
        omega
      · rw [if_neg hat] at h
        simp at h
  · rw [if_neg hb] at h
    simp at h

/-- Concrete email from end-to-end scenario D. -/
def exEmail : List Char :=
  ['j', 'o', 'h', 'n', '.', 'd', 'o', 'e', '@',
   'e', 'x', 'a', 'm', 'p', 'l', 'e', '.', 'c', 'o', 'm']

/-- Its masked form `joh*****.com`. -/
def exEmailMasked : List Char :=
  ['j', 'o', 'h', '*', '*', '*', '*', '*', '.', 'c', 'o', 'm']

/-- C4: every match of the email pattern spans at least 6 characters
and its replacement (first 3 characters, 5 mask characters, last 4
characters) has length exactly 12, whatever the original length; and
masking `john.doe@example.com` yields `joh*****.com`. -/
theorem c4_email_masking :
    (∀ (mc : Char) (s : List Char) (i e : Nat), matchAt s i = some e →
      6 ≤ e - i ∧ (maskRepl mc (sliceFrom s i (e - i))).length = 12) ∧
    maskSensitiveData exEmail '*' = exEmailMasked := by
  constructor
  · intro mc s i e h
    rcases matchAt_bounds s i e h with ⟨h6, hle⟩
    have hm : (sliceFrom s i (e - i)).length = e - i := by
      simp [sliceFrom, List.length_take, List.length_drop]
      omega
    refine ⟨by omega, ?_⟩
    simp [maskRepl, List.length_append, List.length_take, List.length_drop,
      List.length_replicate, hm]
    omega
  · decide

theorem c4_email_masking_witness :
    matchAt exEmail 0 = some 20 ∧
    (maskRepl '*' (sliceFrom exEmail 0 (20 - 0))).length = 12 :=
  ⟨by decide, (c4_email_masking.1 '*' exEmail 0 20 (by decide)).2⟩

/-- C5: empty input is returned unchanged; for non-empty input the
path mask is applied iff, after email masking, the text is longer than
30 characters and contains a slash or backslash, in which case the
output is `first 10 ++ 10 masks ++ last 10` of the email-masked text
and has length exactly 30; otherwise the output is just the
email-masked text. -/
theorem c5_path_masking :
    (∀ mc : Char, maskSensitiveData [] mc = []) ∧
    (∀ (mc : Char) (t : List Char), t ≠ [] →
      (pathTrigger (emailSub t mc) = true →
        maskSensitiveData t mc = pathMask mc (emailSub t mc) ∧
        (maskSensitiveData t mc).length = 30) ∧
      (pathTrigger (emailSub t mc) = false →
        maskSensitiveData t mc = emailSub t mc)) := by
  constructor
  · intro mc
    rfl
  · intro mc t ht
    have hne : t.isEmpty = false := by
      cases t with
      | nil => exact absurd rfl ht
      | cons c cs => rfl
    constructor
    · intro htr
      have hmask : maskSensitiveData t mc = pathMask mc (emailSub t mc) := by
        unfold maskSensitiveData
        rw [hne]
        simp only [Bool.false_eq_true, if_false, htr, if_true]
      refine ⟨hmask, ?_⟩
      rw [hmask]
      have h30 : 30 < (emailSub t mc).length := by
        unfold pathTrigger at htr
        rcases Bool.and_eq_true_iff.mp htr with ⟨h1, _⟩
        exact of_decide_eq_true h1
      simp [pathMask, List.length_append, List.length_take, List.length_drop,
        List.length_replicate]
      omega
    · intro htr
      unfold maskSensitiveData
      rw [hne]
      simp only [Bool.false_eq_true, if_false, htr]

/-- A 35-character input containing a slash and no email. -/
def exPathText : List Char := '/' :: List.replicate 34 'a'

theorem c5_path_masking_witness :
    exPathText ≠ [] ∧
    maskSensitiveData exPathText '*' = pathMask '*' (emailSub exPathText '*') :=
  ⟨by decide, (((c5_path_masking.2 '*' exPathText (by decide)).1 (by decide)).1)⟩

theorem matchAt_none_of_ge (s : List Char) (i : Nat) (h : s.length ≤ i) :
    matchAt s i = none := by
  have hd : s.drop i = [] := List.drop_eq_nil_of_le h
  simp [matchAt, hd, takeRun]

/-- Decidable "no position of `u` starts an email match" (positions
past the end never match: the local part needs at least one char). -/
def hasNoMatch (u : List Char) : Bool :=
  (List.range (u.length + 1)).all (fun i => (matchAt u i).isNone)

theorem hasNoMatch_all (u : List Char) (h : hasNoMatch u = true) :
    ∀ i, matchAt u i = none := by
  intro i
  by_cases hi : i ≤ u.length
  · have := List.all_eq_true.mp h i (List.mem_range.mpr (by omega))
    simpa [Option.isNone_iff_eq_none] using this
  · exact matchAt_none_of_ge u i (by omega)

theorem subAux_id (s : List Char) (mc : Char) (hall : ∀ i, matchAt s i = none) :
    ∀ fuel p, s.length ≤ p + fuel → subAux s mc p fuel = s.drop p := by
  intro fuel
  induction fuel with
  | zero =>
    intro p hp
    rw [subAux, List.drop_eq_nil_of_le (by omega)]
  | succ n ih =>
    intro p hp
    rw [subAux]
    by_cases hlt : p < s.length
    · rw [if_pos hlt, hall p]
      rw [ih (p + 1) (by omega)]
      rw [List.drop_eq_getElem_cons hlt]
      rfl
    · rw [if_neg hlt, List.drop_eq_nil_of_le (by omega)]

theorem emailSub_eq_self (u : List Char) (mc : Char) (h : hasNoMatch u = true) :
    emailSub u mc = u := by
  unfold emailSub
  rw [subAux_id u mc (hasNoMatch_all u h) u.length 0 (by omega)]
  rfl

theorem mask_eq_self (u : List Char) (mc : Char)
    (h1 : hasNoMatch u = true) (h2 : pathTrigger u = false) :
    maskSensitiveData u mc = u := by
  by_cases hu : u.isEmpty = true
  · unfold maskSensitiveData
    rw [if_pos hu]
  · unfold maskSensitiveData
    rw [if_neg hu]
    simp only [emailSub_eq_self u mc h1, h2, Bool.false_eq_true, if_false]

/-- C6: the masker is idempotent on its own output whenever that
output has no email-pattern match left and does not trip the path
mask: mask (mask t) = mask t.  (Determinism/purity hold by
construction: `maskSensitiveData` is a Lean function of its input.) -/
theorem c6_idempotent (mc : Char) (t : List Char)
    (h1 : hasNoMatch (maskSensitiveData t mc) = true)
    (h2 : pathTrigger (maskSensitiveData t mc) = false) :
    maskSensitiveData (maskSensitiveData t mc) mc = maskSensitiveData t mc :=
  mask_eq_self (maskSensitiveData t mc) mc h1 h2

theorem c6_idempotent_witness :
    hasNoMatch (maskSensitiveData exEmail '*') = true ∧
    pathTrigger (maskSensitiveData exEmail '*') = false ∧
    maskSensitiveData (maskSensitiveData exEmail '*') '*' = maskSensitiveData exEmail '*' :=
  ⟨by decide, by decide, c6_idempotent '*' exEmail (by decide) (by decide)⟩

/-! ### Vector store, mock mode (app/services/vector_store.py)

A stored document is the dict
`{"id", "content", "embedding", "filename", "chunk_id"}`; scores are
modelled in ℚ (the mock score 0.95 is an exact constant). -/

structure MockDoc where
  docId : List Char
  content : List Char
  embedding : List ℚ
  filename : List Char
  chunk_id : Nat
deriving DecidableEq

/-- A search hit `{"text", "score", "metadata": {"filename", "chunk_id"}}`. -/
structure SearchHit where
  text : List Char
  score : ℚ
  filename : List Char
  chunk_id : Nat
deriving DecidableEq

/-- The constant similarity score 0.95 returned in mock mode. -/
def mockScore : ℚ := 95 / 100

def toHit (d : MockDoc) : SearchHit :=
  { text := d.content, score := mockScore,
    filename := d.filename, chunk_id := d.chunk_id }

/-- `VectorStore.search` in mock mode: `self.mock_storage[:top_k]`,
each formatted with the constant score. -/
def search (store : List MockDoc) (top_k : Nat) : List SearchHit :=
  (store.take top_k).map toHit

/-- `doc.get(field)` compared against a string value: only the three
string-valued keys can equal a string; `embedding` (a float list),
`chunk_id` (an int) and missing keys (`None`) are never equal to the
string `value` in Python, modelled as `none`. -/
def docGet (d : MockDoc) (field : List Char) : Option (List Char) :=
  if field = ['i', 'd'] then some d.docId
  else if field = ['c', 'o', 'n', 't', 'e', 'n', 't'] then some d.content
  else if field = ['f', 'i', 'l', 'e', 'n', 'a', 'm', 'e'] then some d.filename
  else none

/-- `VectorStore.delete_by_metadata(field, value)` in mock mode:
keep the documents with `doc.get(field) != value`, return the new
storage and `initial_count - len(new)`. -/
def delete_by_metadata (store : List MockDoc) (field value : List Char) :
    List MockDoc × Nat :=
  let newStore := store.filter (fun d => !(docGet d field == some value))
  (newStore, store.length - newStore.length)

/-- C9: mock search returns the first `min top_k N` stored records in
insertion order, every hit carries the constant score 0.95, the result
count never exceeds `top_k`, and searching an empty store yields `[]`
(not an error). -/
theorem c9_mock_search (store : List MockDoc) (top_k : Nat) :
    (search store top_k).length = min top_k store.length ∧
    (search store top_k).length ≤ top_k ∧
    (∀ i, i < top_k → (search store top_k)[i]? = (store[i]?).map toHit) ∧
    (∀ r ∈ search store top_k, r.score = mockScore) ∧
    search [] top_k = [] := by
  refine ⟨?_, ?_, ?_, ?_, ?_⟩
  · simp [search, List.length_take]
  · simp [search, List.length_take]
  · intro i hi
    simp [search, List.getElem?_map, List.getElem?_take_of_lt hi]
  · intro r hr
    rcases List.mem_map.mp hr with ⟨d, _, rfl⟩
    rfl
  · simp [search]

def exDoc1 : MockDoc :=
  { docId := ['1'], content := ['h', 'i'], embedding := [1, 0],
    filename := ['f', '.', 'p', 'd', 'f'], chunk_id := 0 }

def exDoc2 : MockDoc :=
  { docId := ['2'], content := ['y', 'o'], embedding := [0, 1],
    filename := ['g', '.', 'p', 'd', 'f'], chunk_id := 1 }

theorem c9_mock_search_witness :
    (0 < 2) ∧ (search [exDoc1, exDoc2] 2)[0]? = ([exDoc1, exDoc2][0]?).map toHit :=
  ⟨by norm_num, (c9_mock_search [exDoc1, exDoc2] 2).2.2.1 0 (by norm_num)⟩

/-- C10: mock delete-by-metadata removes exactly the records whose
`field` equals `value`: the returned count is the number of matching
records, the remaining store is a sublist of the original (others
unchanged, original order), membership in the result is membership in
the original minus the matches, and when nothing matches the store is
returned identical with count 0. -/
theorem c10_delete_by_metadata (store : List MockDoc) (field value : List Char) :
    (delete_by_metadata store field value).2 =
      store.countP (fun d => docGet d field == some value) ∧
    (delete_by_metadata store field value).1.Sublist store ∧
    (∀ d : MockDoc, d ∈ (delete_by_metadata store field value).1 ↔
      (d ∈ store ∧ docGet d field ≠ some value)) ∧
    (store.countP (fun d => docGet d field == some value) = 0 →
      (delete_by_metadata store field value).1 = store ∧
      (delete_by_metadata store field value).2 = 0) := by
  have hsplit := List.length_eq_length_filter_add
    (l := store) (fun d => docGet d field == some value)
  have hcount := List.countP_eq_length_filter
    (fun d => docGet d field == some value) store
  refine ⟨?_, ?_, ?_, ?_⟩
  · simp only [delete_by_metadata]
    omega
  · exact List.filter_sublist store
  · intro d
    simp only [delete_by_metadata]
    rw [List.mem_filter]
    simp [beq_iff_eq]
  · intro h0
    have hall : ∀ d ∈ store, ¬ (docGet d field == some value) = true :=
      List.countP_eq_zero.mp h0
    have hfil : store.filter (fun d => !(docGet d field == some value)) = store := by
      rw [List.filter_eq_self]
      intro a ha
      simp [hall a ha]
    constructor
    · simp only [delete_by_metadata]
      rw [hfil]
    · simp only [delete_by_metadata]
      rw [hfil]
      omega

theorem c10_delete_by_metadata_witness :
    ([exDoc1, exDoc2].countP
        (fun d => docGet d ['i', 'd'] == some ['z']) = 0) ∧
    (delete_by_metadata [exDoc1, exDoc2] ['i', 'd'] ['z']).1 = [exDoc1, exDoc2] :=
  ⟨by decide,
   ((c10_delete_by_metadata [exDoc1, exDoc2] ['i', 'd'] ['z']).2.2.2 (by decide)).1⟩

/-! ### Text extraction and the ingestion pipeline
(app/services/pdf_processor.py `extract_text`,
app/services/embedding_service.py `generate_embeddings`,
app/main.py `upload_pdfs`). PDF parsing itself is external (PyPDF2);
its output, the per-page extracted strings, is the model's input. -/

/-- `full_text = "" ; for page: full_text += text + "\n"`. -/
def joinPages (pages : List (List Char)) : List Char :=
  pages.foldl (fun acc t => acc ++ t ++ ['\n']) []

/-- `PDFProcessor.extract_text` after parsing: if the concatenated
text is blank, log a warning and return `[]`; else chunk it. -/
def extract_text (C O : Nat) (pages : List (List Char)) : List (List Char) :=
  let full_text := joinPages pages
  if isBlank full_text then [] else createChunks C O full_text

/-- `range(0, len(texts), 16)` batch slices of
`EmbeddingService._generate_azure_embeddings`. -/
def azureBatches (texts : List (List Char)) : List (List (List Char)) :=
  (List.range' 0 (numStarts texts.length 16) 16).map
    (fun i => (texts.drop i).take 16)

/-- The batch loop: embed each batch in order and extend the output
list, one vector per input text. -/
def azureEmbed (embed : List Char → List ℚ) (texts : List (List Char)) :
    List (List ℚ) :=
  ((azureBatches texts).map (fun b => b.map embed)).flatten

/-- `EmbeddingService.generate_embeddings`: after the backend call it
logs `len(embeddings[0])`, which raises IndexError when `embeddings`
is empty; the raised exception is modelled as `none`. -/
def generate_embeddings (embed : List Char → List ℚ)
    (texts : List (List Char)) : Option (List (List ℚ)) :=
  let embeddings := azureEmbed embed texts
  match embeddings with
  | [] => none
  | e :: rest => some (e :: rest)

/-- One file's pass through `upload_pdfs` (mock blob mode: the blob
upload which runs first always succeeds).  `some n` is a success entry
with chunk count `n`; `none` is an exception, which the handler turns
into an HTTP 500 response. -/
def processFile (C O : Nat) (embed : List Char → List ℚ)
    (pages : List (List Char)) : Option Nat :=
  let text_chunks := extract_text C O pages
  match generate_embeddings embed text_chunks with
  | none => none
  | some _ => some text_chunks.length

theorem isBlank_append (a b : List Char) :
    isBlank (a ++ b) = (isBlank a && isBlank b) := by
  simp [isBlank, List.all_append]

theorem joinPages_blank (pages : List (List Char))
    (h : ∀ p ∈ pages, isBlank p = true) : isBlank (joinPages pages) = true := by
  suffices hgen : ∀ acc, isBlank acc = true →
      isBlank (pages.foldl (fun acc t => acc ++ t ++ ['\n']) acc) = true by
    exact hgen [] rfl
  induction pages with
  | nil => intro acc hacc; simpa [joinPages] using hacc
  | cons p ps ih =>
    intro acc hacc
    simp only [List.foldl_cons]
    refine ih (fun q hq => h q (List.mem_cons_of_mem p hq)) _ ?_
    rw [List.append_assoc, isBlank_append, hacc]
    rw [isBlank_append, h p (List.mem_cons_self p ps)]
    rfl

/-- C7: the claim says a well-formed PDF with no extractable text is
processed to completion with 0 chunks and only a warning.  The code
does return an empty chunk list from extraction, but
`generate_embeddings` then evaluates `len(embeddings[0])` on the empty
embeddings list, raising IndexError, so the upload request fails with
HTTP 500 instead of succeeding. -/
theorem c7_empty_pdf_errors (C O : Nat) (embed : List Char → List ℚ)
    (pages : List (List Char)) (h : ∀ p ∈ pages, isBlank p = true) :
    extract_text C O pages = [] ∧ processFile C O embed pages = none := by
  have hext : extract_text C O pages = [] := by
    unfold extract_text
    simp only [joinPages_blank pages h, if_true]
  refine ⟨hext, ?_⟩
  unfold processFile
  rw [hext]
  rfl

/-- Two pages, one whitespace-only and one empty. -/
def exBlankPages : List (List Char) := [[' '], []]

theorem c7_empty_pdf_errors_witness :
    extract_text 1000 200 exBlankPages = [] ∧
    processFile 1000 200 (fun _ => []) exBlankPages = none :=
  c7_empty_pdf_errors 1000 200 (fun _ => []) exBlankPages (by decide)

/-! ### Delete endpoint (app/main.py `delete_document`) -/

/-- Mutating calls the handler can make against the two stores, in
the order it makes them. -/
inductive StoreOp where
  | deleteVectors (filename : List Char)
  | deleteBlob (filename : List Char)
deriving DecidableEq

structure DeleteOutcome where
  status : Nat
  vectors_deleted : Option Nat
  ops : List StoreOp
  store : List MockDoc
deriving DecidableEq

def filenameKey : List Char := ['f', 'i', 'l', 'e', 'n', 'a', 'm', 'e']

/-- `DELETE /documents/{filename}?confirm=...`: without `confirm` the
handler raises HTTP 400 before touching any store; with it, it deletes
the vector records by filename first, then the blob (a no-op on
storage contents in mock mode). -/
def delete_document (store : List MockDoc) (filename : List Char)
    (confirm : Bool) : DeleteOutcome :=
  if !confirm then
    { status := 400, vectors_deleted := none, ops := [], store := store }
  else
    let res := delete_by_metadata store filenameKey filename
    { status := 200, vectors_deleted := some res.2,
      ops := [StoreOp.deleteVectors filename, StoreOp.deleteBlob filename],
      store := res.1 }

/-- C8: with the confirmation flag false the handler answers 400,
performs no store operation and leaves the store unchanged; with it
true the operations are vector delete first, blob delete second, and
the store is the filtered one with the matching records' count
reported. -/
theorem c8_delete_confirmation (store : List MockDoc) (filename : List Char) :
    (delete_document store filename false).status = 400 ∧
    (delete_document store filename false).ops = [] ∧
    (delete_document store filename false).store = store ∧
    (delete_document store filename true).status = 200 ∧
    (delete_document store filename true).ops =
      [StoreOp.deleteVectors filename, StoreOp.deleteBlob filename] ∧
    (delete_document store filename true).store =
      (delete_by_metadata store filenameKey filename).1 ∧
    (delete_document store filename true).vectors_deleted =
      some (delete_by_metadata store filenameKey filename).2 :=
  ⟨rfl, rfl, rfl, rfl, rfl, rfl, rfl⟩

end RagPipeline
